/-
Verification of the World Bank abstract-scraper repository.

The Python sources under scrutiny are `src/api_scraper.py`
(class WorldBankAPIScraper), `src/simple_scraper.py`
(class SimpleWorldBankScraper) and `world_bank_scraper.py`
(class WorldBankScraper).  Pure pipeline logic (identifier resolution,
field extraction, text normalization, per-record batch orchestration) is
shallowly embedded below; network fetches, HTML parsing and the browser
driver are modelled as oracles handed to the embedded functions, since
their outputs are exactly what the decision logic consumes.
-/
import Mathlib

set_option maxRecDepth 4000

namespace WBScraper

/-! ### Python-style whitespace and `' '.join(text.split())`

`text.split()` with no argument splits on runs of whitespace and drops
empty pieces; `' '.join(...)` rejoins with single spaces.  We model the
whitespace class by the ASCII characters Python's `str.split` treats as
whitespace. -/

def isPySpace (c : Char) : Bool :=
  c == ' ' || c == '\t' || c == '\n' || c == '\r' || c == '\x0b' || c == '\x0c'

/-- `text.split()`: the maximal whitespace-free words of `l`, in order. -/
def wordsL : List Char → List (List Char)
  | [] => []
  | c :: cs =>
    if isPySpace c then wordsL cs
    else
      match cs with
      | [] => [[c]]
      | d :: _ =>
        if isPySpace d then [c] :: wordsL cs
        else
          match wordsL cs with
          | [] => [[c]]
          | w :: rest => (c :: w) :: rest

/-- `' '.join(ws)`: interleave single spaces between the words. -/
def joinWords : List (List Char) → List Char
  | [] => []
  | [w] => w
  | w :: ws => w ++ ' ' :: joinWords ws

/-- `' '.join(text.split())` — the whitespace-collapse step of
`_clean_text` (api_scraper.py line 147). -/
def collapseL (l : List Char) : List Char :=
  joinWords (wordsL l)

/-- Python `str.strip()`: drop whitespace from both ends. -/
def stripL (l : List Char) : List Char :=
  ((l.dropWhile isPySpace).reverse.dropWhile isPySpace).reverse

/-- Python `str.strip()` on `String`. -/
def pyStripStr (s : String) : String :=
  String.mk (stripL s.data)

/-- The `prefixes_to_remove` list of
`WorldBankAPIScraper._clean_text` (api_scraper.py lines 150-155); the
identical list appears in `SimpleWorldBankScraper._clean_text`. -/
def apiPrefixList : List (List Char) :=
  [ "Abstract*".data, "Abstract:".data, "Abstract".data,
    "Project Abstract:".data, "Project Abstract".data,
    "Project Development Objective:".data, "Project Development Objective".data,
    "Description:".data, "Description".data ]

/-- The shorter `prefixes_to_remove` list inlined in
`WorldBankScraper.extract_abstract` (world_bank_scraper.py line 214). -/
def wbPrefixList : List (List Char) :=
  [ "Abstract*".data, "Abstract:".data, "Abstract".data,
    "Project Abstract:".data, "Project Abstract".data ]

/-- The `for prefix in prefixes_to_remove: if text.startswith(prefix):
text = text[len(prefix):].strip()` loop (api_scraper.py lines 157-159):
a single in-order scan of the list, stripping each matching entry from
the current text as it goes. -/
def stripPrefixScan (ps : List (List Char)) (t : List Char) : List Char :=
  ps.foldl (fun acc p => if p.isPrefixOf acc then stripL (acc.drop p.length) else acc) t

/-- `WorldBankAPIScraper._clean_text` on `List Char`. -/
def cleanTextL (l : List Char) : List Char :=
  stripPrefixScan apiPrefixList (collapseL l)

/-- `WorldBankAPIScraper._clean_text` / `SimpleWorldBankScraper._clean_text`
(api_scraper.py lines 144-161): collapse whitespace, then the in-order
prefix-stripping scan. -/
def cleanText (s : String) : String :=
  String.mk (cleanTextL s.data)

/-- The inline cleanup of `WorldBankScraper.extract_abstract`
(world_bank_scraper.py lines 211-217): same collapse, shorter prefix list. -/
def wbCleanText (s : String) : String :=
  String.mk (stripPrefixScan wbPrefixList (collapseL s.data))

example : cleanText "  Abstract:   Hello   world  " = "Hello world" := by decide
example : cleanText "Project Abstract: Foo" = "Foo" := by decide
example : cleanText "Description: Abstract: Foo" = "Abstract: Foo" := by decide
example : cleanText "Abstract: Description: Foo" = "Foo" := by decide
example : collapseL "a  b ".data = "a b".data := by decide
example : pyStripStr "  a b  " = "a b" := by decide

/-! ### Identifier Resolver

`WorldBankAPIScraper.extract_project_id` (api_scraper.py lines 46-52):
`re.search` with the pattern `/project-detail/(P\d+)` — scan for the first
position where the literal `/project-detail/P` is followed by at least one
digit, and capture `P` plus the maximal digit run there. -/

def pidLiteral : List Char := "/project-detail/P".data

/-- Attempt the regex match anchored at the current position. -/
def pidMatchHere (l : List Char) : Option (List Char) :=
  if pidLiteral.isPrefixOf l then
    let ds := (l.drop pidLiteral.length).takeWhile Char.isDigit
    if ds.isEmpty then none else some ('P' :: ds)
  else none

/-- `re.search`: try every start position left to right. -/
def searchPidL : List Char → Option (List Char)
  | [] => none
  | c :: cs =>
    match pidMatchHere (c :: cs) with
    | some r => some r
    | none => searchPidL cs

/-- `WorldBankAPIScraper.extract_project_id`: the captured group, or
`None` when the pattern matches nowhere. -/
def extract_project_id (url : String) : Option String :=
  (searchPidL url.data).map String.mk

example :
    extract_project_id
      "https://projects.worldbank.org/en/projects-operations/project-detail/P168606"
      = some "P168606" := by decide
example : extract_project_id "https://example.org/foo/P123" = none := by decide

/-! ### API Field Extractor

`WorldBankAPIScraper.extract_abstract` (api_scraper.py lines 86-142).
The project payload returned by the API is a JSON object; we model it as
an association list from field names to string values (Python dict keys
are unique; `List.lookup` takes the first binding).  The fetch itself is
an oracle: `Except.error` models an exception raised while fetching
(caught inside `get_project_data`, which then returns `None`), `Except.ok
none` models a response without the requested key. -/

def ProjectData : Type := List (String × String)

/-- The `abstract_fields` priority list (api_scraper.py lines 112-119). -/
def abstract_fields : List String :=
  [ "project_abstract", "abstract", "description", "summary",
    "project_description", "project_summary" ]

/-- The `for field in abstract_fields` loop (api_scraper.py lines
121-126).  `acc` is the mutable `abstract` variable: a present, truthy
(nonempty) field overwrites it with the stripped value, and the loop
breaks as soon as that stripped value is longer than 50 characters. -/
def scanFields : List String → ProjectData → String → String
  | [], _, acc => acc
  | f :: fs, pd, acc =>
    match List.lookup f pd with
    | some v =>
      if v ≠ "" then
        let a := pyStripStr v
        if 50 < a.length then a else scanFields fs pd a
      else scanFields fs pd acc
    | none => scanFields fs pd acc

/-- Lines 108-135 of api_scraper.py: scan the fields, then clean and
return the chosen text, or return `""` when `abstract` stayed falsy. -/
def extractFromData (pd : ProjectData) : String :=
  let a := scanFields abstract_fields pd ""
  if a ≠ "" then cleanText a else ""

/-- `WorldBankAPIScraper.extract_abstract` (api_scraper.py lines
86-142), parameterized by the fetch oracle.  Every failure path — no
project id in the URL, an exception during the fetch (caught by the
`except` at line 137 or inside `get_project_data`), or a payload without
the key — produces `""`. -/
def extractAbstract {ε : Type} (fetch : String → Except ε (Option ProjectData))
    (url : String) : String :=
  match extract_project_id url with
  | none => ""
  | some pid =>
    match fetch pid with
    | Except.error _ => ""
    | Except.ok none => ""
    | Except.ok (some pd) => extractFromData pd

example : extractFromData [("abstract", "short")] = "short" := by decide

/-! ### HTML Field Extractors

`SimpleWorldBankScraper.extract_abstract` (simple_scraper.py lines
45-109) runs an ordered list of strategies; each strategy call either
raises (caught at line 88, strategy skipped) or returns a string.  We
model the document by the list of per-strategy outcomes.

`WorldBankScraper.extract_abstract` (world_bank_scraper.py lines 91-233)
iterates XPath selectors; each selector either raises (caught at line
175) or yields the list of `textContent` strings of its matching
elements.  We model the rendered page by the per-selector outcomes plus
the text the BeautifulSoup fallback (lines 179-207) would produce. -/

/-- The acceptance test of the strategy loop (simple_scraper.py line 84):
`result and len(result.strip()) > 50`. -/
def qualifies (r : String) : Bool :=
  50 < (pyStripStr r).length

/-- The `for i, strategy in enumerate(strategies, 1)` loop
(simple_scraper.py lines 81-90): first qualifying strategy result wins. -/
def simpleScan {ε : Type} : List (Except ε String) → String
  | [] => ""
  | Except.error _ :: rest => simpleScan rest
  | Except.ok r :: rest => if qualifies r then r else simpleScan rest

/-- `SimpleWorldBankScraper.extract_abstract` given the strategy
outcomes: clean the winning text, or return `""` when none qualifies. -/
def simpleExtract {ε : Type} (strategies : List (Except ε String)) : String :=
  let a := simpleScan strategies
  if a ≠ "" then cleanText a else ""

/-- The inner element loop of world_bank_scraper.py lines 166-169:
append every matching element whose stripped `textContent` is longer
than 50 characters, each followed by a space, to `abstract_text`. -/
def wbStep : String → List String → String
  | acc, [] => acc
  | acc, t :: ts =>
    let s := pyStripStr t
    wbStep (if s ≠ "" ∧ 50 < s.length then acc ++ s ++ " " else acc) ts

/-- The selector loop of world_bank_scraper.py lines 148-177: skip
selectors that raise or match nothing; after accumulating a selector's
qualifying elements, break as soon as `abstract_text.strip()` is truthy. -/
def wbScan {ε : Type} : List (Except ε (List String)) → String → String
  | [], acc => acc
  | Except.error _ :: rest, acc => wbScan rest acc
  | Except.ok texts :: rest, acc =>
    if texts.isEmpty then wbScan rest acc
    else
      let acc2 := wbStep acc texts
      if pyStripStr acc2 ≠ "" then acc2 else wbScan rest acc2

/-- `WorldBankScraper.extract_abstract` given the selector outcomes and
the text the soup fallback would find (used only when the selector scan
produced nothing, lines 179-207); lines 209-223 clean and return. -/
def wbExtract {ε : Type} (selectors : List (Except ε (List String)))
    (soupText : String) : String :=
  let a := wbScan selectors ""
  let b := if pyStripStr a = "" then soupText else a
  if b ≠ "" then wbCleanText b else ""

/-! ### Batch Orchestrator

`WorldBankAPIScraper.process_csv` (api_scraper.py lines 163-228).  A
pandas DataFrame is a rectangular table: a list of column names and one
cell list per row, parallel to the columns; a cell is `none` for NaN.
File I/O (`pd.read_csv`, `df.to_csv`, the output file name) is outside
the embedding; the table itself is the input and output.  The per-record
pipeline `self.extract_abstract(url)` is passed in as `pipe`; an
`Except.error` models an exception escaping it into the per-row
`try`/`except` of lines 199-210. -/

structure DataFrame where
  cols : List String
  rows : List (List (Option String))
deriving DecidableEq

/-- Position of a column among the column names. -/
def colIdx (cols : List String) (c : String) : Nat :=
  cols.findIdx (fun x => x == c)

/-- `df[output_column] = v` (api_scraper.py line 185): overwrite the
column if it exists, else append it, in every row. -/
def setCol (df : DataFrame) (c : String) (v : Option String) : DataFrame :=
  if c ∈ df.cols then ⟨df.cols, df.rows.map (fun r => r.set (colIdx df.cols c) v)⟩
  else ⟨df.cols ++ [c], df.rows.map (fun r => r ++ [v])⟩

/-- What the per-row `try`/`except` of lines 199-210 writes into the
result cell: the pipeline's string on success, `""` when an exception is
caught at the per-record boundary. -/
def rowOutcome {ε : Type} (pipe : String → Except ε String) (url : String) : String :=
  match pipe url with
  | Except.ok s => s
  | Except.error _ => ""

/-- One iteration of the `for index, row in df.iterrows()` loop (lines
191-210): skip (leaving the initialized empty result) when the locator
cell is NaN or blank, otherwise write the pipeline outcome. -/
def processRow {ε : Type} (pipe : String → Except ε String) (ui oi : Nat)
    (r : List (Option String)) : List (Option String) :=
  match r.getD ui none with
  | none => r
  | some url =>
    if pyStripStr url = "" then r
    else r.set oi (some (rowOutcome pipe url))

/-- Lines 184-222 of api_scraper.py, after the column check passed:
initialize the result column to `""`, process every row in order, and
count the rows whose result cell differs from `""` (the
`successful_extractions` summary of line 221). -/
def processTable {ε : Type} (pipe : String → Except ε String)
    (uc oc : String) (df : DataFrame) : DataFrame × Nat :=
  let df1 := setCol df oc (some "")
  let ui := colIdx df1.cols uc
  let oi := colIdx df1.cols oc
  let rows := df1.rows.map (processRow pipe ui oi)
  let succ := rows.countP (fun r => !(r.getD oi none == some ""))
  (⟨df1.cols, rows⟩, succ)

/-- `WorldBankAPIScraper.process_csv` (lines 175-222): fail fast with a
descriptive message when the locator column is absent (line 182 — the
Python message additionally wraps the column name in single quotation
marks, elided here), otherwise process the whole table. -/
def process_csv {ε : Type} (pipe : String → Except ε String)
    (uc oc : String) (df : DataFrame) : Except String (DataFrame × Nat) :=
  if uc ∈ df.cols then Except.ok (processTable pipe uc oc df)
  else
    Except.error
      ("Column " ++ uc ++ " not found in CSV. Available columns: "
        ++ String.intercalate ", " df.cols)

/-- The locator cell the loop reads for row `k` (after the result column
was initialized). -/
def urlAt (df : DataFrame) (uc oc : String) (k : Nat) : Option String :=
  ((setCol df oc (some "")).rows.getD k []).getD
    (colIdx (setCol df oc (some "")).cols uc) none

/-- The result cell of row `k` of a processed table. -/
def resultAt (pr : DataFrame × Nat) (oi k : Nat) : Option String :=
  (pr.1.rows.getD k []).getD oi none

/-- The result-column position used by `processTable`. -/
def outIdx (df : DataFrame) (oc : String) : Nat :=
  colIdx (setCol df oc (some "")).cols oc

/-- Rectangularity: every row has one cell per column. -/
def Rect (df : DataFrame) : Prop :=
  ∀ r ∈ df.rows, r.length = df.cols.length

instance (df : DataFrame) : Decidable (Rect df) := by
  unfold Rect; infer_instance

/-! ### Spec-side characterizations

These definitions follow the words of the specification (not the code)
and exist to be compared with the embedded functions. -/

/-- The output shape the spec's normalizer invariant describes: no
leading or trailing whitespace, no run of two consecutive whitespace
characters, and every whitespace character is a plain space (so no
newlines or tabs survive). -/
structure FullClean (l : List Char) : Prop where
  onlySp : ∀ c ∈ l, isPySpace c = true → c = ' '
  lead : ∀ c, l.head? = some c → isPySpace c = false
  trail : ∀ c, l.getLast? = some c → isPySpace c = false
  chain : l.Chain' (fun a b => ¬(isPySpace a = true ∧ isPySpace b = true))

/-- Modelled from the spec: "Strip a known boilerplate label if it
occurs as a literal prefix, trying candidates longest-first … At most
the first matching prefix is removed; remaining text is returned
trimmed."  Collapse whitespace, then remove the single longest matching
entry of the prefix list (if any) and trim. -/
def longestMatching (ps : List (List Char)) (t : List Char) : Option (List Char) :=
  (ps.filter (fun p => p.isPrefixOf t)).foldl
    (fun best p =>
      match best with
      | none => some p
      | some b => if b.length < p.length then some p else some b)
    none

/-- Modelled from the spec: the normalizer as the claim describes it —
whitespace collapse, then at most one (longest) prefix removed, trimmed. -/
def specCleanOnce (s : String) : String :=
  let t := collapseL s.data
  match longestMatching apiPrefixList t with
  | some p => String.mk (stripL (t.drop p.length))
  | none => String.mk t

/-- Split a character list at every `/` (the path-segment separator). -/
def splitSlash : List Char → List (List Char)
  | [] => [[]]
  | c :: cs =>
    let r := splitSlash cs
    if c == '/' then [] :: r
    else
      match r with
      | [] => [[c]]
      | s :: rest => (c :: s) :: rest

/-- A `P`-followed-by-a-digit occurrence somewhere in the list. -/
def hasLetterDigits : List Char → Bool
  | [] => false
  | [_] => false
  | c :: d :: rest => (c == 'P' && d.isDigit) || hasLetterDigits (d :: rest)

/-- Modelled from the spec: "a key of the pattern letter prefix + digits
embedded anywhere in a path segment" (the repository's key letter is
`P`). -/
def specHasKeyInPathSegment (url : String) : Bool :=
  (splitSlash url.data).any hasLetterDigits

/-- Bool form of "this strategy outcome does not qualify" (raised, or
text whose stripped length is at most 50). -/
def notQualB {ε : Type} : Except ε String → Bool
  | Except.ok s => !qualifies s
  | Except.error _ => true

/-! ### Concrete fixtures used by witnesses -/

/-- A 60-character candidate (no boilerplate prefix, no whitespace runs). -/
def str60 : String :=
  "primary abstract text primary abstract text primary abstr 60"

/-- A 200-character fallback candidate. -/
def str200 : String :=
  String.mk (List.replicate 200 'x')

/-- A 51-character qualifying element text. -/
def strA : String := String.mk (List.replicate 51 'a')

/-- Another 51-character qualifying element text. -/
def strB : String := String.mk (List.replicate 51 'b')

/-! ## Lemma development -/

/-- Head of a `dropWhile` residue fails the predicate. -/
theorem headDropNot (p : Char → Bool) (l : List Char) (c : Char)
    (h : (l.dropWhile p).head? = some c) : p c = false := by
  induction l with
  | nil => simp [List.dropWhile] at h
  | cons a as ih =>
    rw [List.dropWhile_cons] at h
    split at h
    · exact ih h
    · next hp =>
      simp only [List.head?_cons, Option.some.injEq] at h
      subst h
      exact Bool.eq_false_iff.mpr hp

/-- Head of a stripped string is not whitespace. -/
theorem stripL_head (l : List Char) (c : Char)
    (h : (stripL l).head? = some c) : isPySpace c = false := by
  unfold stripL at h
  rw [List.head?_reverse] at h
  obtain ⟨pre, hpre⟩ :=
    List.dropWhile_suffix (l := (l.dropWhile isPySpace).reverse) isPySpace
  have hbne : (l.dropWhile isPySpace).reverse.dropWhile isPySpace ≠ [] := by
    intro hb0
    rw [hb0] at h
    simp at h
  have h2 : ((l.dropWhile isPySpace).reverse).getLast? = some c := by
    rw [← hpre, List.getLast?_append, h]
    rfl
  rw [List.getLast?_reverse] at h2
  exact headDropNot _ _ _ h2

/-- Last character of a stripped string is not whitespace. -/
theorem stripL_last (l : List Char) (c : Char)
    (h : (stripL l).getLast? = some c) : isPySpace c = false := by
  unfold stripL at h
  rw [List.getLast?_reverse] at h
  exact headDropNot _ _ _ h

/-- A list containing a non-whitespace character strips to a nonempty list. -/
theorem stripL_ne_nil (l : List Char) (c : Char) (hc : c ∈ l)
    (hs : isPySpace c = false) : stripL l ≠ [] := by
  intro h
  unfold stripL at h
  rw [List.reverse_eq_nil_iff, List.dropWhile_eq_nil_iff] at h
  have hmem : c ∈ l.dropWhile isPySpace := by
    have h2 : c ∈ l.takeWhile isPySpace ++ l.dropWhile isPySpace := by
      rw [List.takeWhile_append_dropWhile]
      exact hc
    rcases List.mem_append.mp h2 with h3 | h3
    · rw [List.mem_takeWhile_imp h3] at hs
      cases hs
    · exact h3
  have := h c (List.mem_reverse.mpr hmem)
  rw [hs] at this
  cases this

/-- A qualifying strategy result is a nonempty string. -/
theorem qual_ne_empty (r : String) (hr : qualifies r = true) : r ≠ "" := by
  intro h
  subst h
  exact absurd hr (by decide)

/-- A string whose length exceeds 50 is nonempty. -/
theorem long_ne_empty (s : String) (h : 50 < s.length) : s ≠ "" := by
  intro h0
  subst h0
  simp at h

/-- Skipping a block of non-qualifying strategies. -/
theorem simpleScan_append_skip {ε : Type} (pre rest : List (Except ε String))
    (hpre : pre.all notQualB = true) :
    simpleScan (pre ++ rest) = simpleScan rest := by
  induction pre with
  | nil => rfl
  | cons x xs ih =>
    rw [List.all_cons, Bool.and_eq_true] at hpre
    cases x with
    | error e =>
      simpa [simpleScan] using ih hpre.2
    | ok s =>
      have hnq : qualifies s = false := by
        have := hpre.1
        simp [notQualB] at this
        exact this
      simpa [simpleScan, hnq] using ih hpre.2

/-- A qualifying strategy at the front wins immediately. -/
theorem simpleScan_qual {ε : Type} (r : String) (rest : List (Except ε String))
    (hr : qualifies r = true) : simpleScan (Except.ok r :: rest) = r := by
  simp [simpleScan, hr]

/-- Whatever is already accumulated survives the element loop. -/
theorem mem_wbStep_acc (ts : List String) (acc : String) (c : Char)
    (hc : c ∈ acc.data) : c ∈ (wbStep acc ts).data := by
  induction ts generalizing acc with
  | nil => exact hc
  | cons t ts ih =>
    rw [wbStep]
    apply ih
    split
    · simp only [String.data_append]
      exact List.mem_append_left _ (List.mem_append_left _ hc)
    · exact hc

/-- If some element qualifies, the element loop accumulates visible text. -/
theorem wbStep_has_content (ts : List String) (acc : String)
    (hq : ∃ t ∈ ts, qualifies t = true) :
    ∃ c ∈ (wbStep acc ts).data, isPySpace c = false := by
  induction ts generalizing acc with
  | nil =>
    obtain ⟨t, ht, _⟩ := hq
    cases ht
  | cons t ts ih =>
    obtain ⟨t', ht', hqt⟩ := hq
    rcases List.mem_cons.mp ht' with h | h
    · subst h
      have hlen : 50 < (pyStripStr t').length := by
        simpa [qualifies] using hqt
      have hdne : (pyStripStr t').data ≠ [] := by
        intro h0
        have : (pyStripStr t').length = 0 := by
          simp [String.length, h0]
        omega
      obtain ⟨c, hc⟩ : ∃ c, (pyStripStr t').data.head? = some c := by
        cases hd : (pyStripStr t').data with
        | nil => exact absurd hd hdne
        | cons a as => exact ⟨a, rfl⟩
      have hcs : isPySpace c = false := stripL_head _ _ hc
      have hcmem : c ∈ (pyStripStr t').data := by
        cases hd : (pyStripStr t').data with
        | nil => exact absurd hd hdne
        | cons a as =>
          rw [hd] at hc
          simp only [List.head?_cons, Option.some.injEq] at hc
          subst hc
          simp [hd]
      rw [wbStep]
      have hcond : pyStripStr t' ≠ "" ∧ 50 < (pyStripStr t').length :=
        ⟨long_ne_empty _ hlen, hlen⟩
      rw [if_pos hcond]
      refine ⟨c, mem_wbStep_acc _ _ _ ?_, hcs⟩
      simp only [String.data_append]
      exact List.mem_append_left _ (List.mem_append_right _ hcmem)
    · rw [wbStep]
      exact ih _ ⟨t', h, hqt⟩

/-- The selector loop breaks at the first selector with qualifying text. -/
theorem wbScan_first_qual {ε : Type} (ts : List String)
    (rest : List (Except ε (List String)))
    (hq : ∃ t ∈ ts, qualifies t = true) :
    wbScan (Except.ok ts :: rest) "" = wbStep "" ts := by
  obtain ⟨c, hc, hcs⟩ := wbStep_has_content ts "" hq
  have hstrip : pyStripStr (wbStep "" ts) ≠ "" := by
    intro h
    have hdata : stripL (wbStep "" ts).data = [] := congrArg String.data h
    exact stripL_ne_nil _ c hc hcs hdata
  cases ts with
  | nil =>
    obtain ⟨t, ht, _⟩ := hq
    cases ht
  | cons t ts' =>
    rw [wbScan]
    rw [if_neg (by simp)]
    simp only []
    rw [if_pos hstrip]

/-- No character of the list is whitespace. -/
def NoSp (w : List Char) : Prop :=
  ∀ c ∈ w, isPySpace c = false

/-- Unfolding: a whitespace head is skipped. -/
theorem wordsL_sp (c : Char) (cs : List Char) (h : isPySpace c = true) :
    wordsL (c :: cs) = wordsL cs := by
  cases cs <;> simp [wordsL, h]

/-- Unfolding: a final non-whitespace character forms a singleton word. -/
theorem wordsL_nsp_nil (c : Char) (h : isPySpace c = false) :
    wordsL [c] = [[c]] := by
  simp [wordsL, h]

/-- Unfolding: a non-whitespace character before whitespace forms its own
word. -/
theorem wordsL_nsp_sp (c d : Char) (cs' : List Char)
    (h1 : isPySpace c = false) (h2 : isPySpace d = true) :
    wordsL (c :: d :: cs') = [c] :: wordsL (d :: cs') := by
  simp [wordsL, h1, h2]

/-- Unfolding: a non-whitespace character joins the following word. -/
theorem wordsL_nsp_nsp (c d : Char) (cs' : List Char)
    (h1 : isPySpace c = false) (h2 : isPySpace d = false) :
    wordsL (c :: d :: cs') =
      match wordsL (d :: cs') with
      | [] => [[c]]
      | w :: rest => (c :: w) :: rest := by
  simp [wordsL, h1, h2]

/-- Every word produced by `wordsL` is nonempty and whitespace-free. -/
theorem wordsL_sound (l : List Char) : ∀ w ∈ wordsL l, w ≠ [] ∧ NoSp w := by
  induction l with
  | nil => intro w hw; cases hw
  | cons c cs ih =>
    intro w hw
    by_cases hc : isPySpace c = true
    · rw [wordsL_sp c cs hc] at hw
      exact ih w hw
    · have hcf : isPySpace c = false := Bool.eq_false_iff.mpr hc
      cases cs with
      | nil =>
        rw [wordsL_nsp_nil c hcf] at hw
        rcases List.mem_singleton.mp hw with rfl
        refine ⟨by simp, ?_⟩
        intro x hx
        rcases List.mem_singleton.mp hx with rfl
        exact hcf
      | cons d cs' =>
        by_cases hd : isPySpace d = true
        · rw [wordsL_nsp_sp c d cs' hcf hd] at hw
          rcases List.mem_cons.mp hw with rfl | h
          · refine ⟨by simp, ?_⟩
            intro x hx
            rcases List.mem_singleton.mp hx with rfl
            exact hcf
          · exact ih w h
        · have hdf : isPySpace d = false := Bool.eq_false_iff.mpr hd
          rw [wordsL_nsp_nsp c d cs' hcf hdf] at hw
          cases hws : wordsL (d :: cs') with
          | nil =>
            rw [hws] at hw
            rcases List.mem_singleton.mp hw with rfl
            refine ⟨by simp, ?_⟩
            intro x hx
            rcases List.mem_singleton.mp hx with rfl
            exact hcf
          | cons w0 rest =>
            rw [hws] at hw
            rcases List.mem_cons.mp hw with rfl | h
            · have h0 := ih w0 (by rw [hws]; exact List.mem_cons_self _ _)
              refine ⟨by simp, ?_⟩
              intro x hx
              rcases List.mem_cons.mp hx with rfl | hx2
              · exact hcf
              · exact h0.2 x hx2
            · exact ih w (by rw [hws]; exact List.mem_cons_of_mem _ h)

/-- `wordsL` of a list with a non-whitespace head is nonempty. -/
theorem wordsL_ne_nil (c : Char) (cs : List Char) (hc : isPySpace c = false) :
    wordsL (c :: cs) ≠ [] := by
  cases cs with
  | nil =>
    rw [wordsL_nsp_nil c hc]
    simp
  | cons d cs' =>
    by_cases hd : isPySpace d = true
    · rw [wordsL_nsp_sp c d cs' hc hd]
      simp
    · rw [wordsL_nsp_nsp c d cs' hc (Bool.eq_false_iff.mpr hd)]
      cases wordsL (d :: cs') <;> simp

/-- Splitting a word off the front of `joinWords`. -/
theorem joinWords_cons_cons (w w' : List Char) (ws : List (List Char)) :
    joinWords (w :: w' :: ws) = w ++ ' ' :: joinWords (w' :: ws) := rfl

/-- Prepending a character to the first word. -/
theorem joinWords_cons_head (c : Char) (w : List Char) (ws : List (List Char)) :
    joinWords ((c :: w) :: ws) = c :: joinWords (w :: ws) := by
  cases ws with
  | nil => rfl
  | cons w' ws' => rfl

/-- `joinWords` of a nonempty list of nonempty words is nonempty. -/
theorem joinWords_ne_nil (w : List Char) (ws : List (List Char)) (hw : w ≠ []) :
    joinWords (w :: ws) ≠ [] := by
  cases ws with
  | nil => exact hw
  | cons w' ws' =>
    rw [joinWords_cons_cons]
    intro h
    rcases List.append_eq_nil.mp h with ⟨_, h2⟩
    cases h2

/-- Head of `joinWords` is the head of the first word. -/
theorem joinWords_head (w : List Char) (ws : List (List Char)) (hw : w ≠ []) :
    (joinWords (w :: ws)).head? = w.head? := by
  cases ws with
  | nil => rfl
  | cons w' ws' =>
    rw [joinWords_cons_cons]
    cases w with
    | nil => exact absurd rfl hw
    | cons a as => rfl

/-- A whitespace-free list trivially has no two adjacent whitespace
characters. -/
theorem chain_of_noSp (w : List Char) (h : NoSp w) :
    w.Chain' (fun a b => ¬(isPySpace a = true ∧ isPySpace b = true)) := by
  induction w with
  | nil => exact List.chain'_nil
  | cons a as ihw =>
    rw [List.chain'_cons']
    refine ⟨?_, ihw (fun c hc => h c (List.mem_cons_of_mem _ hc))⟩
    intro y _ hy
    rw [h a (List.mem_cons_self _ _)] at hy
    cases hy.1

/-- The whitespace-free words joined by single spaces satisfy the full
normal-form invariant. -/
theorem joinWords_fullClean (ws : List (List Char))
    (h : ∀ w ∈ ws, w ≠ [] ∧ NoSp w) : FullClean (joinWords ws) := by
  induction ws with
  | nil =>
    refine ⟨?_, ?_, ?_, List.chain'_nil⟩
    all_goals intro c hc
    all_goals cases hc
  | cons w ws ih =>
    obtain ⟨hwne, hwsp⟩ := h w (List.mem_cons_self _ _)
    have hrest : ∀ w' ∈ ws, w' ≠ [] ∧ NoSp w' :=
      fun w' hw' => h w' (List.mem_cons_of_mem _ hw')
    have ihf := ih hrest
    cases ws with
    | nil =>
      refine ⟨?_, ?_, ?_, chain_of_noSp w hwsp⟩
      · intro c hc hsp
        rw [hwsp c hc] at hsp
        cases hsp
      · intro c hc
        exact hwsp c (List.mem_of_mem_head? hc)
      · intro c hc
        exact hwsp c (List.mem_of_mem_getLast? hc)
    | cons w' ws' =>
      obtain ⟨hw'ne, hw'sp⟩ := h w' (List.mem_cons_of_mem _ (List.mem_cons_self _ _))
      have hJne : joinWords (w' :: ws') ≠ [] := joinWords_ne_nil w' ws' hw'ne
      have hJhead : ∀ y, (joinWords (w' :: ws')).head? = some y → isPySpace y = false := by
        intro y hy
        rw [joinWords_head w' ws' hw'ne] at hy
        exact hw'sp y (List.mem_of_mem_head? hy)
      rw [joinWords_cons_cons]
      refine ⟨?_, ?_, ?_, ?_⟩
      · intro c hc hsp
        rcases List.mem_append.mp hc with h1 | h1
        · rw [hwsp c h1] at hsp
          cases hsp
        · rcases List.mem_cons.mp h1 with rfl | h2
          · rfl
          · exact ihf.onlySp c h2 hsp
      · intro c hc
        have he : (w ++ ' ' :: joinWords (w' :: ws')).head? = w.head? := by
          cases w with
          | nil => exact absurd rfl hwne
          | cons a as => rfl
        rw [he] at hc
        exact hwsp c (List.mem_of_mem_head? hc)
      · intro c hc
        rw [List.getLast?_append] at hc
        have hJlast : (' ' :: joinWords (w' :: ws')).getLast? =
            (joinWords (w' :: ws')).getLast? := by
          cases hJ : joinWords (w' :: ws') with
          | nil => exact absurd hJ hJne
          | cons a as => rw [List.getLast?_cons_cons]
        rw [hJlast] at hc
        cases hlast : (joinWords (w' :: ws')).getLast? with
        | none => exact absurd (List.getLast?_eq_none_iff.mp hlast) hJne
        | some a =>
          rw [hlast] at hc
          have hc2 : some a = some c := hc
          obtain rfl : a = c := Option.some.inj hc2
          exact ihf.trail a hlast
      · rw [List.chain'_append]
        refine ⟨chain_of_noSp w hwsp, ?_, ?_⟩
        · rw [List.chain'_cons']
          refine ⟨?_, ihf.chain⟩
          intro y hy hcontra
          rw [hJhead y hy] at hcontra
          cases hcontra.2
        · intro x hx y hy hcontra
          have hxs : isPySpace x = false := hwsp x (List.mem_of_mem_getLast? hx)
          rw [hxs] at hcontra
          cases hcontra.1

/-- The collapse step always produces fully normalized text. -/
theorem fullClean_collapseL (l : List Char) : FullClean (collapseL l) :=
  joinWords_fullClean (wordsL l) (wordsL_sound l)

/-- The empty list is trivially normalized. -/
theorem fullClean_nil : FullClean ([] : List Char) := by
  refine ⟨?_, ?_, ?_, List.chain'_nil⟩
  all_goals intro c hc
  all_goals cases hc

/-- Characters of a stripped list come from the original. -/
theorem mem_stripL (l : List Char) (c : Char) (hc : c ∈ stripL l) : c ∈ l := by
  unfold stripL at hc
  rw [List.mem_reverse] at hc
  have h1 := (List.dropWhile_suffix isPySpace).subset hc
  rw [List.mem_reverse] at h1
  exact (List.dropWhile_suffix isPySpace).subset h1

/-- Stripping preserves the content invariants and restores the boundary
ones, yielding full normal form. -/
theorem fullClean_stripL (t : List Char)
    (h1 : ∀ c ∈ t, isPySpace c = true → c = ' ')
    (h2 : t.Chain' (fun a b => ¬(isPySpace a = true ∧ isPySpace b = true))) :
    FullClean (stripL t) := by
  refine ⟨?_, stripL_head t, stripL_last t, ?_⟩
  · intro c hc hsp
    exact h1 c (mem_stripL t c hc) hsp
  · unfold stripL
    have c1 := h2.suffix (List.dropWhile_suffix isPySpace)
    have c2 := (List.chain'_reverse.mpr
      (c1.imp (fun a b hab (hcontra : isPySpace b = true ∧ isPySpace a = true) =>
        hab ⟨hcontra.2, hcontra.1⟩)))
    have c3 := c2.suffix (List.dropWhile_suffix isPySpace)
    exact List.chain'_reverse.mpr
      (c3.imp (fun a b hab (hcontra : isPySpace b = true ∧ isPySpace a = true) =>
        hab ⟨hcontra.2, hcontra.1⟩))

/-- Unfolding equation of the prefix scan. -/
theorem stripPrefixScan_cons (p : List Char) (ps : List (List Char)) (t : List Char) :
    stripPrefixScan (p :: ps) t =
      stripPrefixScan ps (if p.isPrefixOf t then stripL (t.drop p.length) else t) := rfl

/-- One scan step preserves full normal form. -/
theorem fullClean_step (t p : List Char) (h : FullClean t) :
    FullClean (if p.isPrefixOf t then stripL (t.drop p.length) else t) := by
  split
  · apply fullClean_stripL
    · intro c hc hsp
      exact h.onlySp c ((List.drop_suffix _ _).subset hc) hsp
    · exact h.chain.suffix (List.drop_suffix _ _)
  · exact h

/-- The whole prefix scan preserves full normal form. -/
theorem fullClean_scan (ps : List (List Char)) (t : List Char) (h : FullClean t) :
    FullClean (stripPrefixScan ps t) := by
  induction ps generalizing t with
  | nil => exact h
  | cons p ps ih =>
    rw [stripPrefixScan_cons]
    exact ih _ (fullClean_step t p h)

/-- A scan that matches no prefix returns its input. -/
theorem stripPrefixScan_no_match (ps : List (List Char)) (t : List Char)
    (h : ∀ p ∈ ps, p.isPrefixOf t = false) : stripPrefixScan ps t = t := by
  induction ps with
  | nil => rfl
  | cons p ps ih =>
    rw [stripPrefixScan_cons, if_neg (by simp [h p (List.mem_cons_self _ _)])]
    exact ih (fun q hq => h q (List.mem_cons_of_mem _ hq))

/-- Collapsing leaves fully normalized text unchanged (strong induction
on length). -/
theorem words_join_id (n : Nat) : ∀ l : List Char, l.length ≤ n → FullClean l →
    joinWords (wordsL l) = l := by
  induction n with
  | zero =>
    intro l hl _
    have : l = [] := by
      cases l with
      | nil => rfl
      | cons c cs => simp at hl
    subst this
    rfl
  | succ n ih =>
    intro l hl hf
    cases l with
    | nil => rfl
    | cons c cs =>
      have hc : isPySpace c = false := hf.lead c rfl
      cases cs with
      | nil =>
        rw [wordsL_nsp_nil c hc]
        rfl
      | cons d cs' =>
        by_cases hd : isPySpace d = true
        · have hd' : d = ' ' := hf.onlySp d (by simp) hd
          cases cs' with
          | nil =>
            have htr := hf.trail d (by rw [List.getLast?_cons_cons]; rfl)
            rw [hd] at htr
            cases htr
          | cons e cs'' =>
            have he : isPySpace e = false := by
              have hch := hf.chain
              rw [List.chain'_cons'] at hch
              have hch2 := hch.2
              rw [List.chain'_cons'] at hch2
              have hde := hch2.1 e rfl
              by_contra hne
              rw [Bool.not_eq_false] at hne
              exact hde ⟨hd, hne⟩
            have hfc : FullClean (e :: cs'') := by
              refine ⟨?_, ?_, ?_, ?_⟩
              · intro x hx hsp
                exact hf.onlySp x
                  (List.mem_cons_of_mem _ (List.mem_cons_of_mem _ hx)) hsp
              · intro x hx
                rw [List.head?_cons, Option.some.injEq] at hx
                subst hx
                exact he
              · intro x hx
                apply hf.trail x
                rw [List.getLast?_cons_cons, List.getLast?_cons_cons]
                exact hx
              · exact hf.chain.suffix ⟨[c, d], rfl⟩
            have hlen : (e :: cs'').length ≤ n := by
              simp at hl ⊢
              omega
            have hIH := ih (e :: cs'') hlen hfc
            rw [wordsL_nsp_sp c d (e :: cs'') hc hd, wordsL_sp d (e :: cs'') hd]
            have hwne := wordsL_ne_nil e cs'' he
            cases hws : wordsL (e :: cs'') with
            | nil => exact absurd hws hwne
            | cons w0 rest =>
              rw [hws] at hIH
              rw [joinWords_cons_cons, hIH, hd']
              rfl
        · have hdf : isPySpace d = false := Bool.eq_false_iff.mpr hd
          have hfc : FullClean (d :: cs') := by
            refine ⟨?_, ?_, ?_, ?_⟩
            · intro x hx hsp
              exact hf.onlySp x (List.mem_cons_of_mem _ hx) hsp
            · intro x hx
              rw [List.head?_cons, Option.some.injEq] at hx
              subst hx
              exact hdf
            · intro x hx
              apply hf.trail x
              rw [List.getLast?_cons_cons]
              exact hx
            · exact hf.chain.suffix ⟨[c], rfl⟩
          have hlen : (d :: cs').length ≤ n := by
            simp at hl ⊢
            omega
          have hIH := ih (d :: cs') hlen hfc
          rw [wordsL_nsp_nsp c d cs' hc hdf]
          have hwne := wordsL_ne_nil d cs' hdf
          cases hws : wordsL (d :: cs') with
          | nil => exact absurd hws hwne
          | cons w0 rest =>
            rw [hws] at hIH
            show joinWords ((c :: w0) :: rest) = c :: d :: cs'
            rw [joinWords_cons_head, hIH]

/-- Collapsing a fully normalized list is the identity. -/
theorem collapseL_id (l : List Char) (h : FullClean l) : collapseL l = l :=
  words_join_id l.length l le_rfl h

/-- A prefix shorter than `pa` that fails on `pa` fails on `pa ++ t`. -/
theorem not_prefixOf_append (p pa t : List Char)
    (h : p.isPrefixOf pa = false) (hlen : p.length ≤ pa.length) :
    p.isPrefixOf (pa ++ t) = false := by
  induction p generalizing pa with
  | nil => simp [List.isPrefixOf] at h
  | cons a p' ih =>
    cases pa with
    | nil => simp at hlen
    | cons b pa' =>
      rw [List.cons_append]
      simp only [List.isPrefixOf] at h ⊢
      cases hab : (a == b) with
      | false => simp
      | true =>
        rw [hab, Bool.true_and] at h
        rw [Bool.true_and]
        exact ih pa' h (by simp at hlen; omega)

/-- A list is a (Boolean) prefix of itself followed by anything. -/
theorem self_prefixOf_append (p rest : List Char) :
    p.isPrefixOf (p ++ rest) = true := by
  induction p with
  | nil => simp [List.isPrefixOf]
  | cons a p' ih =>
    rw [List.cons_append]
    simp [List.isPrefixOf, ih]

/-- `setCol` preserves the number of rows. -/
theorem setCol_rows_length (df : DataFrame) (c : String) (v : Option String) :
    (setCol df c v).rows.length = df.rows.length := by
  unfold setCol
  split <;> simp

/-- `setCol` preserves rectangularity. -/
theorem setCol_rect (df : DataFrame) (c : String) (v : Option String)
    (h : Rect df) : Rect (setCol df c v) := by
  unfold Rect setCol
  split
  · intro r hr
    simp only [List.mem_map] at hr
    obtain ⟨r0, hr0, rfl⟩ := hr
    simp [h r0 hr0]
  · intro r hr
    simp only [List.mem_map] at hr
    obtain ⟨r0, hr0, rfl⟩ := hr
    simp [h r0 hr0]

/-- After `setCol`, the column is present. -/
theorem mem_setCol_cols (df : DataFrame) (c : String) (v : Option String) :
    c ∈ (setCol df c v).cols := by
  unfold setCol
  split
  · next h => exact h
  · simp

/-- `setCol` on an existing column keeps the column list. -/
theorem setCol_cols_of_mem (df : DataFrame) (c : String) (v : Option String)
    (h : c ∈ df.cols) : (setCol df c v).cols = df.cols := by
  unfold setCol
  rw [if_pos h]

/-- The index of a present column is in bounds. -/
theorem colIdx_lt_length (cols : List String) (c : String) (h : c ∈ cols) :
    colIdx cols c < cols.length :=
  List.findIdx_lt_length_of_exists ⟨c, h, by simp⟩

/-- `getD` under `map`, in bounds. -/
theorem getD_map_of_lt {α β : Type} (f : α → β) (l : List α) (k : Nat)
    (d : α) (d2 : β) (h : k < l.length) :
    (l.map f).getD k d2 = f (l.getD k d) := by
  rw [List.getD_eq_getElem?_getD, List.getD_eq_getElem?_getD, List.getElem?_map]
  rw [List.getElem?_eq_getElem h]
  rfl

/-- An in-bounds `getD` yields a member. -/
theorem getD_mem {α : Type} (l : List α) (k : Nat) (d : α) (h : k < l.length) :
    l.getD k d ∈ l := by
  rw [List.getD_eq_getElem?_getD, List.getElem?_eq_getElem h]
  simp [List.getElem_mem]

/-- In-bounds `getD` agrees with `getElem`. -/
theorem getD_eq_getElem' {α : Type} (l : List α) (k : Nat) (d : α)
    (h : k < l.length) : l.getD k d = l[k] := by
  rw [List.getD_eq_getElem?_getD, List.getElem?_eq_getElem h]
  rfl

/-- Reading back an in-bounds `set`. -/
theorem getD_set_lt {α : Type} (r : List α) (i : Nat) (v d : α)
    (h : i < r.length) : (r.set i v).getD i d = v := by
  rw [List.getD_eq_getElem?_getD, List.getElem?_eq_getElem (by simpa using h)]
  simp

/-- Rows of `setCol` on an existing column. -/
theorem setCol_row (df : DataFrame) (c : String) (v : Option String) (j : Nat)
    (h : c ∈ df.cols) (hj : j < df.rows.length) :
    (setCol df c v).rows.getD j [] = (df.rows.getD j []).set (colIdx df.cols c) v := by
  unfold setCol
  rw [if_pos h]
  exact getD_map_of_lt _ _ _ [] [] hj

/-- One processed row when the locator cell is NaN. -/
theorem processRow_none {ε : Type} (pipe : String → Except ε String) (ui oi : Nat)
    (r : List (Option String)) (h : r.getD ui none = none) :
    processRow pipe ui oi r = r := by
  unfold processRow
  rw [h]

/-- One processed row when the locator cell holds `url`. -/
theorem processRow_some {ε : Type} (pipe : String → Except ε String) (ui oi : Nat)
    (r : List (Option String)) (url : String) (h : r.getD ui none = some url) :
    processRow pipe ui oi r =
      if pyStripStr url = "" then r else r.set oi (some (rowOutcome pipe url)) := by
  unfold processRow
  rw [h]

/-- Zeta-unfolding of `processTable`. -/
theorem processTable_eq {ε : Type} (pipe : String → Except ε String)
    (uc oc : String) (df : DataFrame) :
    processTable pipe uc oc df =
      (⟨(setCol df oc (some "")).cols,
        (setCol df oc (some "")).rows.map
          (processRow pipe (colIdx (setCol df oc (some "")).cols uc)
            (colIdx (setCol df oc (some "")).cols oc))⟩,
      ((setCol df oc (some "")).rows.map
          (processRow pipe (colIdx (setCol df oc (some "")).cols uc)
            (colIdx (setCol df oc (some "")).cols oc))).countP
        (fun r => !(r.getD (colIdx (setCol df oc (some "")).cols oc) none == some ""))) :=
  rfl

/-- The processed table has one row per input row. -/
theorem processTable_rows_length {ε : Type} (pipe : String → Except ε String)
    (uc oc : String) (df : DataFrame) :
    (processTable pipe uc oc df).1.rows.length = df.rows.length := by
  rw [processTable_eq]
  show ((setCol df oc (some "")).rows.map _).length = _
  rw [List.length_map, setCol_rows_length]

/-- Row `j` of the processed table. -/
theorem processTable_row {ε : Type} (pipe : String → Except ε String)
    (uc oc : String) (df : DataFrame) (j : Nat) (hj : j < df.rows.length) :
    (processTable pipe uc oc df).1.rows.getD j [] =
      processRow pipe (colIdx (setCol df oc (some "")).cols uc)
        (colIdx (setCol df oc (some "")).cols oc)
        ((setCol df oc (some "")).rows.getD j []) := by
  rw [processTable_eq]
  exact getD_map_of_lt _ _ _ [] []
    (by rw [setCol_rows_length]; exact hj)

/-- The summary is the count of non-empty result cells. -/
theorem processTable_snd {ε : Type} (pipe : String → Except ε String)
    (uc oc : String) (df : DataFrame) :
    (processTable pipe uc oc df).2 =
      (processTable pipe uc oc df).1.rows.countP
        (fun r => !(r.getD (colIdx (setCol df oc (some "")).cols oc) none == some "")) := by
  rw [processTable_eq]

/-- Dropping an element the predicate rejects does not change the count. -/
theorem countP_eraseIdx_of_not {α : Type} (l : List α) (p : α → Bool) (k : Nat)
    (d : α) (hk : k < l.length) (hp : p (l.getD k d) = false) :
    l.countP p = (l.eraseIdx k).countP p := by
  rw [List.eraseIdx_eq_take_drop_succ]
  conv_lhs => rw [← List.take_append_drop k l]
  rw [List.countP_append, List.countP_append]
  have hd : l.drop k = l[k] :: l.drop (k + 1) := List.drop_eq_getElem_cons hk
  rw [hd, List.countP_cons]
  have hpk : p l[k] = false := by
    rw [getD_eq_getElem' l k d hk] at hp
    exact hp
  rw [hpk]
  simp

/-- Unfolding `extract_abstract` when the URL carries no project id. -/
theorem extractAbstract_none {ε : Type} (fetch : String → Except ε (Option ProjectData))
    (url : String) (h : extract_project_id url = none) :
    extractAbstract fetch url = "" := by
  unfold extractAbstract
  rw [h]

/-- Unfolding `extract_abstract` when the URL resolves to `pid`. -/
theorem extractAbstract_some {ε : Type} (fetch : String → Except ε (Option ProjectData))
    (url : String) (pid : String) (h : extract_project_id url = some pid) :
    extractAbstract fetch url =
      (match fetch pid with
        | Except.error _ => ""
        | Except.ok none => ""
        | Except.ok (some pd) => extractFromData pd) := by
  unfold extractAbstract
  rw [h]

/-- Zeta-unfolding of `extractFromData`. -/
theorem extractFromData_eq (pd : ProjectData) :
    extractFromData pd =
      (if scanFields abstract_fields pd "" ≠ ""
        then cleanText (scanFields abstract_fields pd "") else "") := rfl

/-- The output of `_clean_text` is always fully normalized. -/
theorem fullClean_cleanText (s : String) : FullClean ((cleanText s).data) := by
  have hb : (cleanText s).data = cleanTextL s.data := by simp only [cleanText]
  rw [hb, cleanTextL]
  exact fullClean_scan _ _ (fullClean_collapseL _)

/-! ## Claim theorems -/

/-- C4: the claim says a candidate whose post-normalization length is at
most 50 characters is never returned, and that if no field qualifies the
result is `""`.  The code contradicts this (and its own inline comment
"Only consider substantial text"): the loop writes the stripped field
value into `abstract` before testing the threshold, so with a document
whose only field is the 10-character `abstract` value `"short text"`,
`extract_abstract` returns that short nonempty string instead of `""`. -/
theorem extract_abstract_short_leak :
    extractFromData [("abstract", "short text")] = "short text" ∧
    ("short text" : String) ≠ "" ∧ ("short text" : String).length ≤ 50 :=
  ⟨by decide, by decide, by decide⟩

/-- C5: field-name priority.  Whenever the primary `project_abstract`
field is present, nonempty, and its stripped text exceeds the
50-character threshold, the extractor returns that field's (cleaned)
text — the result is a function of the primary value alone, so the
remaining field names are never consulted. -/
theorem field_name_priority (pd : ProjectData) (v : String)
    (h1 : List.lookup "project_abstract" pd = some v) (h2 : v ≠ "")
    (h3 : 50 < (pyStripStr v).length) :
    extractFromData pd = cleanText (pyStripStr v) := by
  have hne : pyStripStr v ≠ "" := long_ne_empty _ h3
  simp [extractFromData, abstract_fields, scanFields, h1, h2, h3, hne]

/-- Witness for C5: a document holding the 60-character primary field and
a 200-character fallback yields the primary text. -/
theorem field_name_priority_witness :
    extractFromData [("project_abstract", str60), ("description", str200)]
      = cleanText (pyStripStr str60) :=
  field_name_priority _ str60 (by decide) (by decide) (by decide)

/-- C6 counterexample: the URL `https://example.org/foo/P123` carries the
key pattern (letter `P` + digits) inside a path segment, yet
`extract_project_id` resolves it to `None`, because the code only
accepts a key immediately following the literal `/project-detail/`
segment.  This refutes the claim's "embedded anywhere in a path
segment". -/
theorem resolver_counterexample :
    specHasKeyInPathSegment "https://example.org/foo/P123" = true ∧
    extract_project_id "https://example.org/foo/P123" = none :=
  ⟨by decide, by decide⟩

/-- C6 amended: resolution succeeds exactly when some suffix of the
locator begins with `/project-detail/P` followed by a digit; any
returned code arises from the first such occurrence, scanning left to
right — it comes from a matching suffix every strictly longer suffix of
which (i.e. every earlier position) fails to match; non-matching
locators give `none` — the function is total and pure.  The reference
URL shape resolves to its code, and a locator carrying two occurrences
resolves to the first one. -/
theorem resolver_amended :
    (∀ u : List Char,
      (searchPidL u).isSome = true ↔ ∃ t, t <:+ u ∧ (pidMatchHere t).isSome = true) ∧
    (∀ u k : List Char, searchPidL u = some k →
      ∃ t, t <:+ u ∧ pidMatchHere t = some k ∧
        ∀ t', t' <:+ u → t.length < t'.length → pidMatchHere t' = none) ∧
    extract_project_id
      "https://projects.worldbank.org/en/projects-operations/project-detail/P123456"
      = some "P123456" ∧
    extract_project_id "https://x/project-detail/P1/project-detail/P2"
      = some "P1" := by
  have soundFirst : ∀ u k : List Char, searchPidL u = some k →
      ∃ t, t <:+ u ∧ pidMatchHere t = some k ∧
        ∀ t', t' <:+ u → t.length < t'.length → pidMatchHere t' = none := by
    intro u
    induction u with
    | nil =>
      intro k h
      simp [searchPidL] at h
    | cons c cs ih =>
      intro k h
      cases hm : pidMatchHere (c :: cs) with
      | some r =>
        rw [searchPidL, hm] at h
        cases h
        refine ⟨c :: cs, List.suffix_rfl, hm, ?_⟩
        intro t' ht' hlt
        have hle := ht'.length_le
        omega
      | none =>
        rw [searchPidL, hm] at h
        obtain ⟨t, ht, hm2, hfirst⟩ := ih k h
        refine ⟨t, ht.trans (List.suffix_cons c cs), hm2, ?_⟩
        intro t' ht' hlt
        rcases List.suffix_cons_iff.mp ht' with h2 | h2
        · subst h2
          exact hm
        · exact hfirst t' h2 hlt
  have complete : ∀ u t : List Char, t <:+ u →
      (pidMatchHere t).isSome = true → (searchPidL u).isSome = true := by
    intro u
    induction u with
    | nil =>
      intro t ht hm
      rw [List.suffix_nil] at ht
      subst ht
      exact absurd hm (by decide)
    | cons c cs ih =>
      intro t ht hm
      rcases List.suffix_cons_iff.mp ht with h | h
      · subst h
        cases hma : pidMatchHere (c :: cs) with
        | some r => simp [searchPidL, hma]
        | none => rw [hma] at hm; cases hm
      · cases hma : pidMatchHere (c :: cs) with
        | some r => simp [searchPidL, hma]
        | none =>
          rw [searchPidL, hma]
          exact ih t h hm
  refine ⟨?_, soundFirst, by decide, by decide⟩
  intro u
  constructor
  · intro h
    cases hs : searchPidL u with
    | none => rw [hs] at h; cases h
    | some k =>
      obtain ⟨t, ht, hm, _⟩ := soundFirst u k hs
      exact ⟨t, ht, by rw [hm]; rfl⟩
  · rintro ⟨t, ht, hm⟩
    exact complete u t ht hm

/-- Witness for C6 amended: the firstness implication applied at a
locator carrying two `/project-detail/P…` occurrences.  The returned
code `P1` comes from a matching suffix every strictly longer suffix of
which — every earlier scan position — fails to match, so it is the
first occurrence; the later `P2` occurrence lies in a shorter suffix. -/
theorem resolver_amended_witness :
    ∃ t, t <:+ ("https://x/project-detail/P1/project-detail/P2").data ∧
      pidMatchHere t = some (("P1").data) ∧
      ∀ t', t' <:+ ("https://x/project-detail/P1/project-detail/P2").data →
        t.length < t'.length → pidMatchHere t' = none :=
  resolver_amended.2.1 _ _ (by decide)

/-- C7: configuration-error fast-fail.  When the locator column is
absent, `process_csv` reports an error naming the available columns, the
same error for any pipeline (so no per-record work influences it); when
the column is present, it never errors. -/
theorem config_fast_fail {ε ε2 : Type} (pipe : String → Except ε String)
    (pipe2 : String → Except ε2 String) (uc oc : String) (df : DataFrame) :
    (uc ∉ df.cols →
      process_csv pipe uc oc df =
        Except.error ("Column " ++ uc ++ " not found in CSV. Available columns: "
          ++ String.intercalate ", " df.cols) ∧
      process_csv pipe2 uc oc df =
        Except.error ("Column " ++ uc ++ " not found in CSV. Available columns: "
          ++ String.intercalate ", " df.cols)) ∧
    (uc ∈ df.cols → ∃ pr, process_csv pipe uc oc df = Except.ok pr) := by
  constructor
  · intro h
    constructor <;> simp [process_csv, h]
  · intro h
    refine ⟨processTable pipe uc oc df, ?_⟩
    simp [process_csv, h]

/-- Witness for C7: a two-column table without the locator column. -/
theorem config_fast_fail_witness :
    process_csv (fun _ => (Except.ok "x" : Except Unit String)) "Project URL" "Abstract"
        ⟨["Name", "URL"], [[some "n", some "u"]]⟩
      = Except.error
          "Column Project URL not found in CSV. Available columns: Name, URL" :=
  ((config_fast_fail (fun _ => (Except.ok "x" : Except Unit String))
      (fun _ => (Except.ok "y" : Except Unit String)) "Project URL" "Abstract"
      ⟨["Name", "URL"], [[some "n", some "u"]]⟩).1 (by decide)).1

/-- C8 counterexample: one selector of the browser-rendered extractor
matching two elements, each with qualifying 51-character text, returns
the concatenation of both candidates — not the text of exactly one — so
"never a concatenation of several candidates; further matching elements
are never consulted" fails on `WorldBankScraper.extract_abstract`. -/
theorem extractor_concat_counterexample :
    wbExtract ([Except.ok [strA, strB]] : List (Except Unit (List String))) ""
        = strA ++ " " ++ strB ∧
    strA ++ " " ++ strB ≠ strA ∧ strA ++ " " ++ strB ≠ strB :=
  ⟨by decide, by decide, by decide⟩

/-- C8 amended: the static extractor returns exactly the first
qualifying strategy's text (cleaned), unaffected by later strategies;
the browser-rendered extractor stops at the first selector with
qualifying text — later selectors and the soup fallback are never
consulted — but concatenates all qualifying elements of that selector. -/
theorem first_strategy_wins {ε : Type}
    (pre rest rest2 : List (Except ε String)) (r : String)
    (ts : List String) (rest3 rest4 : List (Except ε (List String)))
    (soup soup2 : String)
    (hpre : pre.all notQualB = true)
    (hr : qualifies r = true)
    (hq : ∃ t ∈ ts, qualifies t = true) :
    simpleExtract (pre ++ Except.ok r :: rest) = cleanText r ∧
    simpleExtract (pre ++ Except.ok r :: rest)
      = simpleExtract (pre ++ Except.ok r :: rest2) ∧
    wbExtract (Except.ok ts :: rest3) soup = wbExtract (Except.ok ts :: rest4) soup2 := by
  have hscan : ∀ rst : List (Except ε String),
      simpleScan (pre ++ Except.ok r :: rst) = r := by
    intro rst
    rw [simpleScan_append_skip _ _ hpre, simpleScan_qual _ _ hr]
  have hex : ∀ rst : List (Except ε String),
      simpleExtract (pre ++ Except.ok r :: rst) = cleanText r := by
    intro rst
    simp [simpleExtract, hscan rst, qual_ne_empty r hr]
  refine ⟨hex rest, (hex rest).trans (hex rest2).symm, ?_⟩
  have h1 : wbScan (Except.ok ts :: rest3) "" = wbStep "" ts :=
    wbScan_first_qual ts rest3 hq
  have h2 : wbScan (Except.ok ts :: rest4) "" = wbStep "" ts :=
    wbScan_first_qual ts rest4 hq
  obtain ⟨c, hc, hcs⟩ := wbStep_has_content ts "" hq
  have hstrip : pyStripStr (wbStep "" ts) ≠ "" := by
    intro h
    exact stripL_ne_nil _ c hc hcs (congrArg String.data h)
  have hne : wbStep "" ts ≠ "" := by
    intro h
    apply hstrip
    rw [h]
    rfl
  simp [wbExtract, h1, h2, hstrip, hne]

/-- Witness for C8 amended: a failing first strategy, a 51-character
winner, varying tails, and a selector with one qualifying element. -/
theorem first_strategy_wins_witness :
    simpleExtract ([Except.error (), Except.ok strA, Except.ok strB]
        : List (Except Unit String)) = cleanText strA ∧
    simpleExtract ([Except.error (), Except.ok strA, Except.ok strB]
        : List (Except Unit String))
      = simpleExtract ([Except.error (), Except.ok strA]
        : List (Except Unit String)) ∧
    wbExtract ([Except.ok [strA], Except.ok [strB]]
        : List (Except Unit (List String))) "soup"
      = wbExtract ([Except.ok [strA]] : List (Except Unit (List String))) "other" :=
  first_strategy_wins [Except.error ()] [Except.ok strB] [] strA
    [strA] [Except.ok [strB]] [] "soup" "other"
    (by decide) (by decide) (by decide)

/-- C10: every output of `_clean_text` — and hence every string the
pipeline writes into a record's result field (either `""` or a cleaned
abstract) — has no leading or trailing whitespace, no run of two
consecutive whitespace characters, and contains no whitespace other
than plain spaces (so no newlines or tabs). -/
theorem clean_output_normalized :
    (∀ s : String, FullClean ((cleanText s).data)) ∧
    (∀ (ε : Type) (fetch : String → Except ε (Option ProjectData)) (url : String),
      FullClean ((extractAbstract fetch url).data)) := by
  refine ⟨fullClean_cleanText, ?_⟩
  intro ε fetch url
  cases hpid : extract_project_id url with
  | none =>
    rw [extractAbstract_none fetch url hpid]
    exact fullClean_nil
  | some pid =>
    rw [extractAbstract_some fetch url pid hpid]
    cases hf : fetch pid with
    | error e => exact fullClean_nil
    | ok od =>
      cases od with
      | none => exact fullClean_nil
      | some pd =>
        show FullClean ((extractFromData pd).data)
        rw [extractFromData_eq]
        split
        · exact fullClean_cleanText _
        · exact fullClean_nil

/-- C2 counterexample: applying `_clean_text` once to
`"Description: Abstract: Foo"` strips `Description:` and leaves
`"Abstract: Foo"`; applying it again strips `Abstract:` as well, so the
normalizer is not idempotent. -/
theorem normalize_not_idempotent :
    cleanText "Description: Abstract: Foo" = "Abstract: Foo" ∧
    cleanText (cleanText "Description: Abstract: Foo") = "Foo" ∧
    cleanText (cleanText "Description: Abstract: Foo")
      ≠ cleanText "Description: Abstract: Foo" :=
  ⟨by decide, by decide, by decide⟩

/-- C2 amended: the normalizer is idempotent on every input whose
normalized output does not itself begin with one of the boilerplate
prefixes; re-normalizing such an output changes nothing. -/
theorem normalize_idempotent_when_stable (s : String)
    (h : ∀ p ∈ apiPrefixList, p.isPrefixOf (cleanText s).data = false) :
    cleanText (cleanText s) = cleanText s := by
  have hb : (cleanText s).data = cleanTextL s.data := by simp only [cleanText]
  rw [hb] at h
  have hfc : FullClean (cleanTextL s.data) := by
    rw [cleanTextL]
    exact fullClean_scan _ _ (fullClean_collapseL _)
  have hs : cleanTextL (cleanTextL s.data) = cleanTextL s.data := by
    rw [cleanTextL]
    rw [collapseL_id _ hfc]
    exact stripPrefixScan_no_match _ _ h
  simp only [cleanText]
  rw [hs]

/-- Witness for C2 amended at a concrete stable input. -/
theorem normalize_idempotent_when_stable_witness :
    cleanText (cleanText "hello world example") = cleanText "hello world example" :=
  normalize_idempotent_when_stable "hello world example" (by decide)

/-- C3 counterexample: on `"Abstract: Description: Foo"` the code's
single in-order scan removes two listed prefixes in sequence
(`Abstract:` and then `Description:`), returning `"Foo"`, whereas
removing at most one (longest) prefix — the spec-side `specCleanOnce` —
returns `"Description: Foo"`. -/
theorem single_strip_counterexample :
    cleanText "Abstract: Description: Foo" = "Foo" ∧
    specCleanOnce "Abstract: Description: Foo" = "Description: Foo" ∧
    cleanText "Abstract: Description: Foo"
      ≠ specCleanOnce "Abstract: Description: Foo" :=
  ⟨by decide, by decide, by decide⟩

/-- C3 amended: the normalizer makes one in-order scan of the prefix
list, so several listed prefixes can be removed in sequence; but when
the collapsed input starts with `Project Abstract:` followed by a space
and the trimmed remainder starts with none of the later-listed prefixes,
exactly that one (longest-possible) prefix is removed — in particular
`"Project Abstract: Foo"` yields `"Foo"`, not `": Foo"`. -/
theorem longest_first_single_scan :
    (∀ s t : List Char,
      collapseL s = ("Project Abstract:").data ++ ' ' :: t →
      (∀ p ∈ apiPrefixList.drop 4, p.isPrefixOf (stripL t) = false) →
      cleanTextL s = stripL t) ∧
    cleanText "Project Abstract: Foo" = "Foo" := by
  constructor
  · intro s t h1 h2
    unfold cleanTextL
    rw [h1]
    have e1 : ("Abstract*").data.isPrefixOf
        (("Project Abstract:").data ++ ' ' :: t) = false :=
      not_prefixOf_append _ _ _ (by decide) (by decide)
    have e2 : ("Abstract:").data.isPrefixOf
        (("Project Abstract:").data ++ ' ' :: t) = false :=
      not_prefixOf_append _ _ _ (by decide) (by decide)
    have e3 : ("Abstract").data.isPrefixOf
        (("Project Abstract:").data ++ ' ' :: t) = false :=
      not_prefixOf_append _ _ _ (by decide) (by decide)
    have e4 : ("Project Abstract:").data.isPrefixOf
        (("Project Abstract:").data ++ ' ' :: t) = true :=
      self_prefixOf_append _ _
    have e5 : (("Project Abstract:").data ++ ' ' :: t).drop
        (("Project Abstract:").data.length) = ' ' :: t := List.drop_left _ _
    have e6 : stripL (' ' :: t) = stripL t := by
      unfold stripL
      rw [List.dropWhile_cons_of_pos (by decide)]
    show stripPrefixScan apiPrefixList _ = _
    rw [show apiPrefixList =
      ("Abstract*").data :: ("Abstract:").data :: ("Abstract").data ::
        ("Project Abstract:").data :: apiPrefixList.drop 4 from rfl]
    rw [stripPrefixScan_cons, if_neg (by simp [e1])]
    rw [stripPrefixScan_cons, if_neg (by simp [e2])]
    rw [stripPrefixScan_cons, if_neg (by simp [e3])]
    rw [stripPrefixScan_cons, if_pos e4]
    rw [e5, e6]
    exact stripPrefixScan_no_match _ _ h2
  · decide

/-- Witness for C3 amended at the claim's own example. -/
theorem longest_first_single_scan_witness :
    cleanTextL ("Project Abstract: Foo").data = stripL ("Foo").data :=
  longest_first_single_scan.1 ("Project Abstract: Foo").data ("Foo").data
    (by decide) (by decide)

/-- C1: batch containment.  For any rectangular table and any two
pipelines that agree on every row other than `k`, if row `k`'s pipeline
run fails (exception at the per-record boundary, or the empty-result
failure signal), the orchestrator still produces one output row per
input row in order, row `k`'s result cell is `""`, every other row is
exactly what it would have been without the failure, and the reported
summary equals the count over the other rows — the failure is invisible
outside row `k`, and no exception escapes (`processTable` is total). -/
theorem batch_containment {ε : Type} (pipe pipe2 : String → Except ε String)
    (uc oc : String) (df : DataFrame) (k : Nat) (url : String)
    (hrect : Rect df)
    (hk : k < df.rows.length)
    (hurl : urlAt df uc oc k = some url)
    (hblank : pyStripStr url ≠ "")
    (hfail : rowOutcome pipe url = "")
    (hagree : ∀ j, j < df.rows.length → j ≠ k →
      (urlAt df uc oc j).map (rowOutcome pipe)
        = (urlAt df uc oc j).map (rowOutcome pipe2)) :
    (processTable pipe uc oc df).1.rows.length = df.rows.length ∧
    resultAt (processTable pipe uc oc df) (outIdx df oc) k = some "" ∧
    (∀ j, j < df.rows.length → j ≠ k →
      (processTable pipe uc oc df).1.rows.getD j []
        = (processTable pipe2 uc oc df).1.rows.getD j []) ∧
    (processTable pipe uc oc df).2 =
      ((processTable pipe uc oc df).1.rows.eraseIdx k).countP
        (fun r => !(r.getD (outIdx df oc) none == some "")) := by
  unfold urlAt at hurl hagree
  unfold resultAt outIdx
  have hrect1 : Rect (setCol df oc (some "")) := setCol_rect df oc (some "") hrect
  have hoc1 : oc ∈ (setCol df oc (some "")).cols := mem_setCol_cols df oc (some "")
  have hoi : colIdx (setCol df oc (some "")).cols oc
      < (setCol df oc (some "")).cols.length :=
    colIdx_lt_length _ _ hoc1
  have hkr : k < (setCol df oc (some "")).rows.length := by
    rw [setCol_rows_length]
    exact hk
  have hoik : colIdx (setCol df oc (some "")).cols oc
      < ((setCol df oc (some "")).rows.getD k []).length := by
    rw [hrect1 _ (getD_mem _ _ _ hkr)]
    exact hoi
  have hresk : ((processTable pipe uc oc df).1.rows.getD k []).getD
      (colIdx (setCol df oc (some "")).cols oc) none = some "" := by
    rw [processTable_row pipe uc oc df k hk]
    rw [processRow_some pipe _ _ _ url hurl, if_neg hblank, hfail]
    exact getD_set_lt _ _ _ _ hoik
  refine ⟨processTable_rows_length pipe uc oc df, hresk, ?_, ?_⟩
  · intro j hj hjk
    rw [processTable_row pipe uc oc df j hj, processTable_row pipe2 uc oc df j hj]
    cases hu : ((setCol df oc (some "")).rows.getD j []).getD
        (colIdx (setCol df oc (some "")).cols uc) none with
    | none => rw [processRow_none _ _ _ _ hu, processRow_none _ _ _ _ hu]
    | some u =>
      rw [processRow_some _ _ _ _ u hu, processRow_some _ _ _ _ u hu]
      by_cases hb : pyStripStr u = ""
      · rw [if_pos hb, if_pos hb]
      · rw [if_neg hb, if_neg hb]
        have ha := hagree j hj hjk
        rw [hu] at ha
        simp only [Option.map_some'] at ha
        rw [Option.some.inj ha]
  · rw [processTable_snd pipe uc oc df]
    apply countP_eraseIdx_of_not _ _ k []
    · rw [processTable_rows_length]
      exact hk
    · rw [hresk]
      simp

/-- Witness for C1: a two-row table whose first row's pipeline raises. -/
theorem batch_containment_witness :
    resultAt
      (processTable
        (fun u => if u == "https://x/project-detail/P1"
          then (Except.error () : Except Unit String) else Except.ok strA)
        "Project URL" "Abstract"
        ⟨["Project URL"],
          [[some "https://x/project-detail/P1"], [some "https://x/project-detail/P2"]]⟩)
      (outIdx
        ⟨["Project URL"],
          [[some "https://x/project-detail/P1"], [some "https://x/project-detail/P2"]]⟩
        "Abstract")
      0 = some "" :=
  (batch_containment
    (fun u => if u == "https://x/project-detail/P1"
      then (Except.error () : Except Unit String) else Except.ok strA)
    (fun _ => Except.ok strA)
    "Project URL" "Abstract"
    ⟨["Project URL"],
      [[some "https://x/project-detail/P1"], [some "https://x/project-detail/P2"]]⟩
    0 "https://x/project-detail/P1"
    (by decide) (by decide) (by decide) (by decide) (by decide) (by decide)).2.1

/-- C9: the orchestrator's result column is initialized for the whole
table before any processing: the processed table is entirely independent
of whatever the input held in the result column, and any row skipped for
a missing or blank locator ends the run with an empty result cell. -/
theorem result_column_overwritten {ε : Type} (pipe : String → Except ε String)
    (uc oc : String) (df df2 : DataFrame)
    (hrect : Rect df) (hrect2 : Rect df2)
    (hcols : df2.cols = df.cols)
    (hoc : oc ∈ df.cols)
    (hlen : df2.rows.length = df.rows.length)
    (hagree : ∀ j, j < df.rows.length → ∀ i, i < df.cols.length →
      i ≠ colIdx df.cols oc →
      (df2.rows.getD j []).getD i none = (df.rows.getD j []).getD i none) :
    processTable pipe uc oc df = processTable pipe uc oc df2 ∧
    (∀ j, j < df.rows.length →
      (urlAt df uc oc j = none ∨
        (∃ u, urlAt df uc oc j = some u ∧ pyStripStr u = "")) →
      resultAt (processTable pipe uc oc df) (outIdx df oc) j = some "") := by
  have hoc2 : oc ∈ df2.cols := by
    rw [hcols]
    exact hoc
  have hoi : colIdx df.cols oc < df.cols.length := colIdx_lt_length _ _ hoc
  constructor
  · have hset : setCol df oc (some "") = setCol df2 oc (some "") := by
      unfold setCol
      rw [if_pos hoc, if_pos hoc2, hcols]
      congr 1
      apply List.ext_getElem
      · rw [List.length_map, List.length_map, hlen]
      · intro i h1 h2
        rw [List.length_map] at h1 h2
        rw [List.getElem_map, List.getElem_map]
        have hl1 : (df.rows[i]).length = df.cols.length :=
          hrect _ (List.getElem_mem h1)
        have hl2 : (df2.rows[i]).length = df.cols.length := by
          rw [hrect2 _ (List.getElem_mem h2), hcols]
        apply List.ext_getElem
        · simp [hl1, hl2]
        · intro i2 g1 g2
          rw [List.length_set] at g1 g2
          by_cases hio : i2 = colIdx df.cols oc
          · subst hio
            rw [List.getElem_set_self (by simpa using g1),
              List.getElem_set_self (by simpa using g2)]
          · rw [List.getElem_set_ne (fun hcontra => hio hcontra.symm),
              List.getElem_set_ne (fun hcontra => hio hcontra.symm)]
            have ha := hagree i (by rw [← hlen]; exact h2) i2
              (by rw [← hl1]; exact g1) hio
            have e1 : df2.rows.getD i [] = df2.rows[i] := getD_eq_getElem' _ _ _ h2
            have e2 : df.rows.getD i [] = df.rows[i] := getD_eq_getElem' _ _ _ h1
            rw [e1, e2] at ha
            have e3 : (df2.rows[i]).getD i2 none = df2.rows[i][i2] :=
              getD_eq_getElem' _ _ _ g2
            have e4 : (df.rows[i]).getD i2 none = df.rows[i][i2] :=
              getD_eq_getElem' _ _ _ g1
            rw [e3, e4] at ha
            exact ha.symm
    rw [processTable_eq, processTable_eq, hset]
  · intro j hj hcase
    unfold resultAt outIdx
    have hoij : colIdx (setCol df oc (some "")).cols oc = colIdx df.cols oc := by
      rw [setCol_cols_of_mem df oc (some "") hoc]
    have hrowj : (setCol df oc (some "")).rows.getD j []
        = (df.rows.getD j []).set (colIdx df.cols oc) (some "") :=
      setCol_row df oc (some "") j hoc hj
    have hset0 : ((setCol df oc (some "")).rows.getD j []).getD
        (colIdx (setCol df oc (some "")).cols oc) none = some "" := by
      rw [hoij, hrowj]
      apply getD_set_lt
      rw [hrect _ (getD_mem _ _ _ hj)]
      exact hoi
    rw [processTable_row pipe uc oc df j hj]
    rcases hcase with hnone | ⟨u, hu, hub⟩
    · unfold urlAt at hnone
      rw [processRow_none _ _ _ _ hnone]
      exact hset0
    · unfold urlAt at hu
      rw [processRow_some _ _ _ _ u hu, if_pos hub]
      exact hset0

/-- Witness for C9: a table with a pre-populated result column produces
exactly the same output as one with that column blanked, and a blank
locator row ends with an empty result. -/
theorem result_column_overwritten_witness :
    processTable (fun _ => (Except.ok strA : Except Unit String))
        "Project URL" "Abstract"
        ⟨["Project URL", "Abstract"], [[some " ", some "OLD VALUE"]]⟩
      = processTable (fun _ => (Except.ok strA : Except Unit String))
        "Project URL" "Abstract"
        ⟨["Project URL", "Abstract"], [[some " ", some "X"]]⟩ ∧
    resultAt
      (processTable (fun _ => (Except.ok strA : Except Unit String))
        "Project URL" "Abstract"
        ⟨["Project URL", "Abstract"], [[some " ", some "OLD VALUE"]]⟩)
      (outIdx ⟨["Project URL", "Abstract"], [[some " ", some "OLD VALUE"]]⟩ "Abstract")
      0 = some "" := by
  have h := result_column_overwritten
    (fun _ => (Except.ok strA : Except Unit String)) "Project URL" "Abstract"
    ⟨["Project URL", "Abstract"], [[some " ", some "OLD VALUE"]]⟩
    ⟨["Project URL", "Abstract"], [[some " ", some "X"]]⟩
    (by decide) (by decide) (by decide) (by decide) (by decide) (by decide)
  exact ⟨h.1, h.2 0 (by decide) (by decide)⟩

end WBScraper
